import Mathlib

/-!
Verification development for the digital-voyager-image-sound codec.

The repository's own source under `src/` is the React container
`src/containers/Main/index.tsx`, which is UI orchestration: the codec
(FileTypeDetector, HeaderCodec, SampleCodec, Encoder, DecodeScheduler)
lives in the external package `digital-voyager-image-sound-core` and in
`helpers/processSound`, neither of which is provided.  Those components
are modelled here from the specification; the UI handler logic
(`handlerOnSelectSoundFile`, the `StageCanvas` sizing expressions) is
embedded directly from `index.tsx`.
-/

namespace Voyager

/-- Modelled from the spec: `UNKNOWN_BITMAP_TYPE_ID` is imported by
`index.tsx` from `src/constants` (not provided); it is the sentinel
`Unknown` FileTypeId, distinct from every known bitmap id. -/
def UNKNOWN_BITMAP_TYPE_ID : Nat := 0

/-- Modelled from the spec: the known bitmap type ids live in
`digital-voyager-image-sound-core/lib/constants` (`bitmapTypeIds`),
which is not provided; the spec only requires a finite set of known
ids distinct from the `Unknown` sentinel. -/
def bitmapTypeIds : List Nat := [1, 2]

/-- Modelled from the spec: `MIN_STAGE_WIDTH` is a positive fallback
stage width from `src/constants` (not provided). -/
def MIN_STAGE_WIDTH : Nat := 320

/-- Modelled from the spec: `MIN_STAGE_HEIGHT` is a positive fallback
stage height from `src/constants` (not provided). -/
def MIN_STAGE_HEIGHT : Nat := 240

/-- Little-endian serialization of a 32-bit unsigned integer, the
header field encoding used by `HeaderCodec.write`. -/
def writeU32 (n : Nat) : List Nat :=
  [n % 256, n / 256 % 256, n / 65536 % 256, n / 16777216 % 256]

/-- Little-endian read of a 32-bit unsigned integer from the first
four bytes of a list (missing bytes read as 0). -/
def readU32le (l : List Nat) : Nat :=
  l.getD 0 0 + 256 * l.getD 1 0 + 65536 * l.getD 2 0 + 16777216 * l.getD 3 0

/-- Read a u32 at a byte offset inside a buffer. -/
def readU32at (buffer : List Nat) (off : Nat) : Nat :=
  readU32le (buffer.drop off)

/-- Header of an encoded WAV buffer: `{ typeId, width, height }`
(spec §3). -/
structure Header where
  typeId : Nat
  width : Nat
  height : Nat
deriving DecidableEq, Repr

/-- Modelled from the spec: the magic-signature registry of
FileTypeDetector (§4.1) is part of the core library, not provided.
Each known bitmap type's signature is its serialized type id, which
`HeaderCodec.write` places at offset 0. -/
def signatureRegistry : List (List Nat × Nat) :=
  [(writeU32 1, 1), (writeU32 2, 2)]

/-- Modelled from the spec: `detect` / `getTypeIdFromBuffer` (§4.1,
core library, not provided).  Inspects a fixed-size prefix of the
buffer against the signature registry; returns the matching id or
`Unknown`.  Pure and total. -/
def detect (buffer : List Nat) : Nat :=
  match signatureRegistry.find? (fun sig => sig.1.isPrefixOf buffer) with
  | some sig => sig.2
  | none => UNKNOWN_BITMAP_TYPE_ID

/-- Decode-path error taxonomy for the header codec (spec §7). -/
inductive HeaderError where
  | CorruptHeader
deriving DecidableEq, Repr

/-- Byte extent of the fixed-layout header: typeId, width, height,
four bytes each. -/
def headerExtent : Nat := 12

/-- Modelled from the spec: `HeaderCodec.parse` / `getBitmapHeaderInfo`
(§4.2, core library, not provided).  For a known bitmap type id, reads
width and height at their fixed offsets and fails with `CorruptHeader`
when the buffer is shorter than the header extent or a dimension
decodes to zero; for any other type id it does not read the buffer and
returns the fallback header. -/
def HeaderCodec.parse (buffer : List Nat) (typeId : Nat) :
    Except HeaderError Header :=
  if typeId ∈ bitmapTypeIds then
    if buffer.length < headerExtent then .error .CorruptHeader
    else
      let w := readU32at buffer 4
      let h := readU32at buffer 8
      if w = 0 ∨ h = 0 then .error .CorruptHeader
      else .ok ⟨typeId, w, h⟩
  else
    .ok ⟨UNKNOWN_BITMAP_TYPE_ID, MIN_STAGE_WIDTH, MIN_STAGE_HEIGHT⟩

/-- Modelled from the spec: `HeaderCodec.write` (§4.2, core library,
not provided).  Serializes the header fields at their canonical
offsets followed by the payload. -/
def HeaderCodec.write (h : Header) (payload : List Nat) : List Nat :=
  writeU32 h.typeId ++ writeU32 h.width ++ writeU32 h.height ++ payload

theorem detect_of_no_signature (buffer : List Nat)
    (h : ∀ sig ∈ signatureRegistry, sig.1.isPrefixOf buffer = false) :
    detect buffer = UNKNOWN_BITMAP_TYPE_ID := by
  unfold detect
  have hfind : signatureRegistry.find? (fun sig => sig.1.isPrefixOf buffer) = none := by
    rw [List.find?_eq_none]
    intro sig hsig
    simp [h sig hsig]
  rw [hfind]

/-- Claim C1: for every byte buffer whose signature matches no known
bitmap type id, `detect` returns `Unknown` and `parse` does not read
the buffer but returns, without throwing, the fallback
`Header{ typeId: Unknown, width: MIN_STAGE_WIDTH, height: MIN_STAGE_HEIGHT }`. -/
theorem C1_unknown_type_fallback (buffer : List Nat)
    (h : ∀ sig ∈ signatureRegistry, sig.1.isPrefixOf buffer = false) :
    detect buffer = UNKNOWN_BITMAP_TYPE_ID ∧
    HeaderCodec.parse buffer (detect buffer) =
      .ok ⟨UNKNOWN_BITMAP_TYPE_ID, MIN_STAGE_WIDTH, MIN_STAGE_HEIGHT⟩ := by
  have hdet := detect_of_no_signature buffer h
  refine ⟨hdet, ?_⟩
  rw [hdet]
  have : UNKNOWN_BITMAP_TYPE_ID ∉ bitmapTypeIds := by decide
  simp [HeaderCodec.parse, this]

/-- Witness for C1 at the concrete buffer `[9, 9, 9]`, which matches
no registered signature. -/
theorem C1_unknown_type_fallback_witness :
    detect [9, 9, 9] = UNKNOWN_BITMAP_TYPE_ID ∧
    HeaderCodec.parse [9, 9, 9] (detect [9, 9, 9]) =
      .ok ⟨UNKNOWN_BITMAP_TYPE_ID, MIN_STAGE_WIDTH, MIN_STAGE_HEIGHT⟩ :=
  C1_unknown_type_fallback [9, 9, 9] (by decide)

/-- Modelled from the spec: SampleCodec's `BitDepth` configuration
(§4.3, core library, not provided).  The two recognized options both
map one amplitude per channel value. -/
inductive BitDepth where
  | depth8
  | wide16
deriving DecidableEq, Repr

/-- Pixel of the raster surface: `{ r, g, b }` with u8 channels
(spec §3). -/
structure Pixel where
  r : Nat
  g : Nat
  b : Nat
deriving DecidableEq, Repr

/-- Validity of a pixel: each channel fits in an unsigned byte. -/
def ValidPixel (p : Pixel) : Prop :=
  p.r < 256 ∧ p.g < 256 ∧ p.b < 256

instance (p : Pixel) : Decidable (ValidPixel p) := by
  unfold ValidPixel; infer_instance

/-- Modelled from the spec: the per-channel amplitude map of
SampleCodec (§4.3, core library, not provided).  `depth8` uses one
amplitude per channel value; `wide16` scales the channel value into
the full signed 16-bit range. -/
def channelAmp (d : BitDepth) (c : Nat) : Int :=
  match d with
  | .depth8 => (c : Int)
  | .wide16 => (c : Int) * 257 - 32768

/-- Modelled from the spec: the per-channel inverse of `channelAmp`. -/
def ampToChannel (d : BitDepth) (a : Int) : Nat :=
  match d with
  | .depth8 => a.toNat
  | .wide16 => ((a + 32768) / 257).toNat

/-- Modelled from the spec: `pixelToSamples` (§4.3, core library, not
provided).  Maps a pixel to the ordered amplitudes of its r, g, b
channels. -/
def pixelToSamples (p : Pixel) (d : BitDepth) : List Int :=
  [channelAmp d p.r, channelAmp d p.g, channelAmp d p.b]

/-- Modelled from the spec: `samplesToPixel` (§4.3, core library, not
provided).  Rebuilds a pixel from the first three amplitudes. -/
def samplesToPixel (samples : List Int) (d : BitDepth) : Pixel :=
  ⟨ampToChannel d (samples.getD 0 0),
   ampToChannel d (samples.getD 1 0),
   ampToChannel d (samples.getD 2 0)⟩

theorem ampToChannel_channelAmp (d : BitDepth) (c : Nat) :
    ampToChannel d (channelAmp d c) = c := by
  cases d with
  | depth8 => simp [ampToChannel, channelAmp]
  | wide16 =>
    simp only [ampToChannel, channelAmp, sub_add_cancel]
    rw [Int.mul_ediv_cancel _ (by norm_num)]
    exact Int.toNat_natCast c

/-- Claim C2: for every pixel and every lossless BitDepth
configuration (both recognized configurations map one amplitude per
channel value), `samplesToPixel` after `pixelToSamples` is the
identity on pixels. -/
theorem C2_roundtrip_lossless (p : Pixel) (d : BitDepth)
    (h : ValidPixel p) :
    samplesToPixel (pixelToSamples p d) d = p := by
  cases p with
  | mk r g b =>
    simp [samplesToPixel, pixelToSamples, List.getD, ampToChannel_channelAmp]

/-- Witness for C2 at the pixel `(10, 20, 30)` under the 16-bit-wide
configuration. -/
theorem C2_roundtrip_lossless_witness :
    samplesToPixel (pixelToSamples ⟨10, 20, 30⟩ .wide16) .wide16 = ⟨10, 20, 30⟩ :=
  C2_roundtrip_lossless ⟨10, 20, 30⟩ .wide16 (by decide)

/-- Raster image consumed by the encode path (spec §4.4). -/
structure RasterImage where
  width : Nat
  height : Nat
  pixels : List Pixel
deriving DecidableEq, Repr

/-- Encode-path error taxonomy (spec §7). -/
inductive EncodeError where
  | UnsupportedImage
deriving DecidableEq, Repr

/-- The bitmap type id chosen by the encoder for RGB images. -/
def CHOSEN_BITMAP_TYPE_ID : Nat := 1

/-- Modelled from the spec: byte serialization of one sample
amplitude in the audio payload (§4.4, core library, not provided). -/
def sampleBytes (d : BitDepth) (a : Int) : List Nat :=
  match d with
  | .depth8 => [a.toNat % 256]
  | .wide16 => [(a + 32768).toNat % 256, (a + 32768).toNat / 256 % 256]

/-- Modelled from the spec: `Encoder.encode` (§4.4, core library, not
provided).  Builds the header from the image dimensions, converts
every pixel in row-major order through `pixelToSamples`, concatenates
the amplitude stream into the payload and delegates to
`HeaderCodec.write`; fails with `UnsupportedImage` when a dimension
is zero or would overflow the header's u32 fields. -/
def Encoder.encode (img : RasterImage) (d : BitDepth) :
    Except EncodeError (List Nat) :=
  if img.width = 0 ∨ img.height = 0 ∨ 4294967296 ≤ img.width ∨ 4294967296 ≤ img.height then
    .error .UnsupportedImage
  else
    .ok (HeaderCodec.write ⟨CHOSEN_BITMAP_TYPE_ID, img.width, img.height⟩
      ((img.pixels.map (fun p => (pixelToSamples p d).map (sampleBytes d))).flatten.flatten))

theorem readU32le_writeU32_append (n : Nat) (rest : List Nat)
    (h : n < 4294967296) : readU32le (writeU32 n ++ rest) = n := by
  simp only [writeU32, List.cons_append, List.nil_append, readU32le,
    List.getD_cons_zero, List.getD_cons_succ]
  omega

theorem isPrefixOf_append_self (l t : List Nat) :
    l.isPrefixOf (l ++ t) = true := by
  rw [List.isPrefixOf_iff_prefix]
  exact List.prefix_append l t

theorem detect_write (w h : Nat) (payload : List Nat) :
    detect (HeaderCodec.write ⟨CHOSEN_BITMAP_TYPE_ID, w, h⟩ payload) =
      CHOSEN_BITMAP_TYPE_ID := by
  have hpre : (fun sig : List Nat × Nat =>
      sig.1.isPrefixOf (HeaderCodec.write ⟨CHOSEN_BITMAP_TYPE_ID, w, h⟩ payload))
      (writeU32 1, 1) = true :=
    isPrefixOf_append_self _ _
  unfold detect signatureRegistry
  rw [List.find?_cons_of_pos (p := fun sig : List Nat × Nat =>
    sig.1.isPrefixOf (HeaderCodec.write ⟨CHOSEN_BITMAP_TYPE_ID, w, h⟩ payload)) _ hpre]
  rfl

theorem parse_write (w h : Nat) (payload : List Nat)
    (hw0 : 0 < w) (hh0 : 0 < h) (hw : w < 4294967296) (hh : h < 4294967296) :
    HeaderCodec.parse (HeaderCodec.write ⟨CHOSEN_BITMAP_TYPE_ID, w, h⟩ payload)
      CHOSEN_BITMAP_TYPE_ID = .ok ⟨CHOSEN_BITMAP_TYPE_ID, w, h⟩ := by
  have hmem : CHOSEN_BITMAP_TYPE_ID ∈ bitmapTypeIds := by decide
  have hlen : (HeaderCodec.write ⟨CHOSEN_BITMAP_TYPE_ID, w, h⟩ payload).length =
      12 + payload.length := by
    simp [HeaderCodec.write, writeU32]
    omega
  have hreadw : readU32at (HeaderCodec.write ⟨CHOSEN_BITMAP_TYPE_ID, w, h⟩ payload) 4 = w := by
    have hdrop : (HeaderCodec.write ⟨CHOSEN_BITMAP_TYPE_ID, w, h⟩ payload).drop 4 =
        writeU32 w ++ (writeU32 h ++ payload) := by
      simp [HeaderCodec.write, writeU32]
    rw [readU32at, hdrop, readU32le_writeU32_append _ _ hw]
  have hreadh : readU32at (HeaderCodec.write ⟨CHOSEN_BITMAP_TYPE_ID, w, h⟩ payload) 8 = h := by
    have hdrop : (HeaderCodec.write ⟨CHOSEN_BITMAP_TYPE_ID, w, h⟩ payload).drop 8 =
        writeU32 h ++ payload := by
      simp [HeaderCodec.write, writeU32]
    rw [readU32at, hdrop, readU32le_writeU32_append _ _ hh]
  unfold HeaderCodec.parse
  rw [if_pos hmem, if_neg (by rw [hlen]; unfold headerExtent; omega)]
  simp only [hreadw, hreadh]
  rw [if_neg (by omega)]

/-- Claim C3: parsing the buffer produced by `Encoder.encode` yields a
header whose typeId, width and height equal those of the header the
encoder built and `HeaderCodec.write` serialized. -/
theorem C3_encode_parse_roundtrip (img : RasterImage) (d : BitDepth)
    (hw0 : 0 < img.width) (hh0 : 0 < img.height)
    (hw : img.width < 4294967296) (hh : img.height < 4294967296) :
    ∃ buf, Encoder.encode img d = .ok buf ∧
      HeaderCodec.parse buf (detect buf) =
        .ok ⟨CHOSEN_BITMAP_TYPE_ID, img.width, img.height⟩ := by
  refine ⟨HeaderCodec.write ⟨CHOSEN_BITMAP_TYPE_ID, img.width, img.height⟩
    ((img.pixels.map (fun p => (pixelToSamples p d).map (sampleBytes d))).flatten.flatten), ?_, ?_⟩
  · unfold Encoder.encode
    rw [if_neg (by omega)]
  · rw [detect_write]
    exact parse_write img.width img.height _ hw0 hh0 hw hh

/-- Witness for C3 at a concrete 1×1 image under the 8-bit
configuration. -/
theorem C3_encode_parse_roundtrip_witness :
    ∃ buf, Encoder.encode ⟨1, 1, [⟨10, 20, 30⟩]⟩ .depth8 = .ok buf ∧
      HeaderCodec.parse buf (detect buf) =
        .ok ⟨CHOSEN_BITMAP_TYPE_ID, 1, 1⟩ :=
  C3_encode_parse_roundtrip ⟨1, 1, [⟨10, 20, 30⟩]⟩ .depth8
    (by decide) (by decide) (by decide) (by decide)

/-- Channel of a pixel by position: 0 ↦ r, 1 ↦ g, 2 ↦ b. -/
def channelOf (p : Pixel) : Fin 3 → Nat
  | 0 => p.r
  | 1 => p.g
  | 2 => p.b

theorem channelAmp_strictMono (d : BitDepth) {c1 c2 : Nat} (h : c1 < c2) :
    channelAmp d c1 < channelAmp d c2 := by
  cases d with
  | depth8 => simpa [channelAmp] using h
  | wide16 => simp only [channelAmp]; omega

/-- Claim C8: for every BitDepth configuration, `pixelToSamples` is
monotonic in each channel: a larger channel value maps to a strictly
larger sample amplitude at that channel's position. -/
theorem C8_pixelToSamples_monotone (d : BitDepth) (p q : Pixel) (i : Fin 3)
    (h : channelOf p i < channelOf q i) :
    (pixelToSamples p d).getD (i : Nat) 0 < (pixelToSamples q d).getD (i : Nat) 0 := by
  fin_cases i <;>
    simpa [pixelToSamples, channelOf, List.getD] using channelAmp_strictMono d h

/-- Witness for C8: green channel 20 < 21 under the 16-bit-wide
configuration. -/
theorem C8_pixelToSamples_monotone_witness :
    (pixelToSamples ⟨10, 20, 30⟩ .wide16).getD ((1 : Fin 3) : Nat) 0 <
      (pixelToSamples ⟨10, 21, 30⟩ .wide16).getD ((1 : Fin 3) : Nat) 0 :=
  C8_pixelToSamples_monotone .wide16 ⟨10, 20, 30⟩ ⟨10, 21, 30⟩ 1 (by decide)

/-- Modelled from the spec: DecodeScheduler states (§4.5, the
scheduler lives in `helpers/processSound`, not provided). -/
inductive SchedState where
  | Idle
  | Decoding
  | Finished
deriving DecidableEq, Repr

/-- Modelled from the spec: DecodeSession (§3): the transient state of
one decode invocation. -/
structure DecodeSession where
  header : Header
  totalSamples : Nat
  samplesConsumed : Nat
deriving DecidableEq, Repr

/-- Half-open range of sample indices processed in one scheduler step
(spec §3). -/
structure SampleRange where
  start : Nat
  stop : Nat
deriving DecidableEq, Repr

/-- Modelled from the spec: the DecodeScheduler together with its
raster-surface pixel count and completion-listener registry (§4.5,
§9; `processSound` / `onDecodeFinished` / `clearStage` live in
`helpers/processSound`, not provided). -/
structure Scheduler where
  state : SchedState
  session : Option DecodeSession
  writtenPixels : Nat
  listeners : List Nat
  notified : List Nat
deriving DecidableEq, Repr

/-- State-machine contract violation (spec §7). -/
inductive SchedError where
  | InvalidState
deriving DecidableEq, Repr

/-- Modelled from the spec: `DecodeScheduler.start` (§4.5).  Valid
only from `Idle`; creates a fresh DecodeSession and transitions to
`Decoding`; fails with `InvalidState` otherwise. -/
def DecodeScheduler.start (s : Scheduler) (hd : Header) (totalSamples : Nat) :
    Except SchedError Scheduler :=
  match s.state with
  | .Idle => .ok { s with state := .Decoding, session := some ⟨hd, totalSamples, 0⟩ }
  | _ => .error .InvalidState

/-- Modelled from the spec: `targetSampleIndex` (§4.5):
`floor(playbackTime / duration * totalSamples)`. -/
def targetSampleIndex (t dur : ℚ) (totalSamples : Nat) : Nat :=
  (⌊t / dur * (totalSamples : ℚ)⌋).toNat

/-- Modelled from the spec: `DecodeScheduler.advance` (§4.5).  Emits
the SampleRange `[samplesConsumed, targetSampleIndex)` and one pixel
write per three samples in it when the target is ahead of the cursor;
a no-op when `targetSampleIndex ≤ samplesConsumed` or when no session
is decoding. -/
def DecodeScheduler.advance (s : Scheduler) (t dur : ℚ) :
    Scheduler × Option SampleRange :=
  match s.state, s.session with
  | .Decoding, some sess =>
    let tgt := targetSampleIndex t dur sess.totalSamples
    if tgt ≤ sess.samplesConsumed then (s, none)
    else
      ({ s with
          session := some { sess with samplesConsumed := tgt },
          writtenPixels := s.writtenPixels + (tgt - sess.samplesConsumed) / 3 },
        some ⟨sess.samplesConsumed, tgt⟩)
  | _, _ => (s, none)

/-- Modelled from the spec: `DecodeScheduler.finish` (§4.5).
Transitions `Decoding → Finished` and fires one completion
notification to every registered listener; a no-op from any other
state. -/
def DecodeScheduler.finish (s : Scheduler) : Scheduler :=
  match s.state with
  | .Decoding => { s with state := .Finished, notified := s.notified ++ s.listeners }
  | _ => s

/-- Modelled from the spec: `DecodeScheduler.reset` / `clearStage`
(§4.5).  Valid from any state: discards the session, clears every
written pixel, returns to `Idle`; the listener registry survives. -/
def DecodeScheduler.reset (s : Scheduler) : Scheduler :=
  { state := .Idle, session := none, writtenPixels := 0,
    listeners := s.listeners, notified := s.notified }

/-- Claim C5: from the `Decoding` state, `finish` fires exactly one
completion notification to each registered listener, and a second
`finish`, made while already `Finished`, is a no-op delivering no
additional notification. -/
theorem C5_finish_idempotent (s : Scheduler)
    (h : s.state = .Decoding) (hn : s.notified = []) :
    (DecodeScheduler.finish s).state = .Finished ∧
    (DecodeScheduler.finish s).notified = s.listeners ∧
    DecodeScheduler.finish (DecodeScheduler.finish s) = DecodeScheduler.finish s := by
  unfold DecodeScheduler.finish
  rw [h]
  simp [hn]

/-- Witness for C5 at a concrete decoding scheduler with two
registered listeners. -/
theorem C5_finish_idempotent_witness :
    (DecodeScheduler.finish ⟨.Decoding, none, 0, [7, 8], []⟩).state = .Finished ∧
    (DecodeScheduler.finish ⟨.Decoding, none, 0, [7, 8], []⟩).notified =
      Scheduler.listeners ⟨.Decoding, none, 0, [7, 8], []⟩ ∧
    DecodeScheduler.finish (DecodeScheduler.finish ⟨.Decoding, none, 0, [7, 8], []⟩) =
      DecodeScheduler.finish ⟨.Decoding, none, 0, [7, 8], []⟩ :=
  C5_finish_idempotent ⟨.Decoding, none, 0, [7, 8], []⟩ rfl rfl

/-- Claim C7: after `start → advance(partial) → reset` the raster
surface reports zero written pixels and the scheduler is `Idle` with
no session; moreover `reset` is valid from any state, discards the
session and clears every written pixel. -/
theorem C7_reset_clears_state (s0 : Scheduler) (hd : Header) (N : Nat)
    (t dur : ℚ) (s1 : Scheduler)
    (h : DecodeScheduler.start s0 hd N = .ok s1) :
    (DecodeScheduler.reset (DecodeScheduler.advance s1 t dur).1).writtenPixels = 0 ∧
    (DecodeScheduler.reset (DecodeScheduler.advance s1 t dur).1).state = .Idle ∧
    (DecodeScheduler.reset (DecodeScheduler.advance s1 t dur).1).session = none ∧
    ∀ s : Scheduler, (DecodeScheduler.reset s).state = .Idle ∧
      (DecodeScheduler.reset s).session = none ∧
      (DecodeScheduler.reset s).writtenPixels = 0 := by
  refine ⟨rfl, rfl, rfl, fun s => ⟨rfl, rfl, rfl⟩⟩

/-- Witness for C7: a concrete idle scheduler started on a 4-sample
session, advanced to the midpoint, then reset. -/
theorem C7_reset_clears_state_witness :
    (DecodeScheduler.reset
      (DecodeScheduler.advance
        ⟨.Decoding, some ⟨⟨1, 2, 2⟩, 4, 0⟩, 0, [], []⟩ (1/2) 1).1).writtenPixels = 0 ∧
    (DecodeScheduler.reset
      (DecodeScheduler.advance
        ⟨.Decoding, some ⟨⟨1, 2, 2⟩, 4, 0⟩, 0, [], []⟩ (1/2) 1).1).state = .Idle ∧
    (DecodeScheduler.reset
      (DecodeScheduler.advance
        ⟨.Decoding, some ⟨⟨1, 2, 2⟩, 4, 0⟩, 0, [], []⟩ (1/2) 1).1).session = none ∧
    ∀ s : Scheduler, (DecodeScheduler.reset s).state = .Idle ∧
      (DecodeScheduler.reset s).session = none ∧
      (DecodeScheduler.reset s).writtenPixels = 0 :=
  C7_reset_clears_state ⟨.Idle, none, 0, [], []⟩ ⟨1, 2, 2⟩ 4 (1/2) 1
    ⟨.Decoding, some ⟨⟨1, 2, 2⟩, 4, 0⟩, 0, [], []⟩ rfl

/-- Session-level decode entry: parse the buffer, and only on a
successfully parsed header hand the payload to the scheduler; on a
parse failure the scheduler is left untouched (spec §7). -/
def startSession (s : Scheduler) (buffer : List Nat) (typeId : Nat) : Scheduler :=
  match HeaderCodec.parse buffer typeId with
  | .error _ => s
  | .ok hd =>
    match DecodeScheduler.start s hd (buffer.length - headerExtent) with
    | .ok s1 => s1
    | .error _ => s

/-- Claim C6: for a known bitmap type id, `HeaderCodec.parse` fails
with `CorruptHeader` exactly when the buffer is shorter than the
header's declared extent or the decoded width or height is zero; in
that failure case the scheduler remains `Idle` with no visible pixel
writes — its state is unchanged. -/
theorem C6_parse_corrupt_iff (buffer : List Nat) (typeId : Nat)
    (hk : typeId ∈ bitmapTypeIds) :
    (HeaderCodec.parse buffer typeId = .error .CorruptHeader ↔
      buffer.length < headerExtent ∨
      readU32at buffer 4 = 0 ∨ readU32at buffer 8 = 0) ∧
    ∀ s : Scheduler, s.state = .Idle →
      HeaderCodec.parse buffer typeId = .error .CorruptHeader →
      startSession s buffer typeId = s ∧
      (startSession s buffer typeId).state = .Idle ∧
      (startSession s buffer typeId).writtenPixels = s.writtenPixels := by
  constructor
  · unfold HeaderCodec.parse
    rw [if_pos hk]
    by_cases hlen : buffer.length < headerExtent
    · simp [hlen]
    · rw [if_neg hlen]
      by_cases hz : readU32at buffer 4 = 0 ∨ readU32at buffer 8 = 0
      · simp [hz, hlen]
      · simp [hz, hlen]
  · intro s hs hfail
    unfold startSession
    rw [hfail]
    exact ⟨rfl, by rw [hs], rfl⟩

/-- Witness for C6 at the empty buffer and type id 1: the buffer is
shorter than the header extent, so parse fails and the idle scheduler
is untouched. -/
theorem C6_parse_corrupt_iff_witness :
    (HeaderCodec.parse [] 1 = .error .CorruptHeader ↔
      ([] : List Nat).length < headerExtent ∨
      readU32at [] 4 = 0 ∨ readU32at [] 8 = 0) ∧
    ∀ s : Scheduler, s.state = .Idle →
      HeaderCodec.parse [] 1 = .error .CorruptHeader →
      startSession s [] 1 = s ∧
      (startSession s [] 1).state = .Idle ∧
      (startSession s [] 1).writtenPixels = s.writtenPixels :=
  C6_parse_corrupt_iff [] 1 (by decide)

/-- Fold a sequence of playback-time reports through
`DecodeScheduler.advance`, collecting the emitted SampleRanges in
order. -/
def runAdvances (dur : ℚ) : Scheduler → List ℚ → Scheduler × List SampleRange
  | s, [] => (s, [])
  | s, t :: ts =>
    ((runAdvances dur (DecodeScheduler.advance s t dur).1 ts).1,
     (DecodeScheduler.advance s t dur).2.toList ++
       (runAdvances dur (DecodeScheduler.advance s t dur).1 ts).2)

/-- `tiles rs lo hi`: the ranges `rs`, in emission order, exactly
tile the interval `[lo, hi)`: each range starts where the previous
one stopped (so starts are non-decreasing and there is no gap and no
overlap), each range is non-empty, and the last range stops at `hi`,
so every sample index in `[lo, hi)` is covered exactly once. -/
def tiles : List SampleRange → Nat → Nat → Prop
  | [], lo, hi => lo = hi
  | r :: rs, lo, hi => r.start = lo ∧ lo < r.stop ∧ tiles rs r.stop hi

theorem targetSampleIndex_le (t dur : ℚ) (N : Nat)
    (hdur : 0 < dur) (ht : t ≤ dur) : targetSampleIndex t dur N ≤ N := by
  unfold targetSampleIndex
  have h1 : t / dur ≤ 1 := (div_le_one hdur).mpr ht
  have h2 : t / dur * (N : ℚ) ≤ (N : ℚ) := by
    calc t / dur * (N : ℚ) ≤ 1 * (N : ℚ) :=
          mul_le_mul_of_nonneg_right h1 (by positivity)
      _ = (N : ℚ) := one_mul _
  have h3 : ⌊t / dur * (N : ℚ)⌋ ≤ (N : Int) := by
    calc ⌊t / dur * (N : ℚ)⌋ ≤ ⌊(N : ℚ)⌋ := Int.floor_le_floor h2
      _ = (N : Int) := Int.floor_natCast N
  exact Int.toNat_le.mpr h3

theorem targetSampleIndex_at_duration (dur : ℚ) (N : Nat) (hdur : 0 < dur) :
    targetSampleIndex dur dur N = N := by
  unfold targetSampleIndex
  rw [div_self (ne_of_gt hdur), one_mul, Int.floor_natCast]
  exact Int.toNat_natCast N

theorem runAdvances_done (dur : ℚ) (hdur : 0 < dur) (hd : Header) (N : Nat) :
    ∀ ts : List ℚ, (∀ t ∈ ts, t ≤ dur) →
    ∀ wp ls nf, (runAdvances dur ⟨.Decoding, some ⟨hd, N, N⟩, wp, ls, nf⟩ ts).2 = [] := by
  intro ts
  induction ts with
  | nil => intro _ wp ls nf; rfl
  | cons t ts ih =>
    intro hts wp ls nf
    have hle : targetSampleIndex t dur N ≤ N :=
      targetSampleIndex_le t dur N hdur (hts t (List.mem_cons_self t ts))
    have hadv : DecodeScheduler.advance ⟨.Decoding, some ⟨hd, N, N⟩, wp, ls, nf⟩ t dur =
        (⟨.Decoding, some ⟨hd, N, N⟩, wp, ls, nf⟩, none) := by
      simp [DecodeScheduler.advance, hle]
    simp only [runAdvances, hadv, Option.toList, List.nil_append]
    exact ih (fun u hu => hts u (List.mem_cons_of_mem t hu)) wp ls nf

theorem runAdvances_tiles (dur : ℚ) (hdur : 0 < dur) (hd : Header) (N : Nat) :
    ∀ ts : List ℚ, (∀ t ∈ ts, t ≤ dur) → dur ∈ ts →
    ∀ (c : Nat) wp ls nf, c ≤ N →
      tiles (runAdvances dur ⟨.Decoding, some ⟨hd, N, c⟩, wp, ls, nf⟩ ts).2 c N := by
  intro ts
  induction ts with
  | nil => intro _ hmem; exact absurd hmem (List.not_mem_nil dur)
  | cons t ts ih =>
    intro hts hmem c wp ls nf hcN
    have htd : t ≤ dur := hts t (List.mem_cons_self t ts)
    have htsRest : ∀ u ∈ ts, u ≤ dur := fun u hu => hts u (List.mem_cons_of_mem t hu)
    have htgtle : targetSampleIndex t dur N ≤ N :=
      targetSampleIndex_le t dur N hdur htd
    by_cases hle : targetSampleIndex t dur N ≤ c
    · have hadv : DecodeScheduler.advance ⟨.Decoding, some ⟨hd, N, c⟩, wp, ls, nf⟩ t dur =
          (⟨.Decoding, some ⟨hd, N, c⟩, wp, ls, nf⟩, none) := by
        simp [DecodeScheduler.advance, hle]
      simp only [runAdvances, hadv, Option.toList, List.nil_append]
      rcases List.mem_cons.mp hmem with hdt | hmem2
      · have htgtN : targetSampleIndex t dur N = N := by
          rw [← hdt]; exact targetSampleIndex_at_duration dur N hdur
        have hcEq : c = N := le_antisymm hcN (htgtN ▸ hle)
        subst hcEq
        rw [runAdvances_done dur hdur hd c ts htsRest wp ls nf]
        exact rfl
      · exact ih htsRest hmem2 c wp ls nf hcN
    · have hlt : c < targetSampleIndex t dur N := Nat.lt_of_not_le hle
      have hadv : DecodeScheduler.advance ⟨.Decoding, some ⟨hd, N, c⟩, wp, ls, nf⟩ t dur =
          (⟨.Decoding, some ⟨hd, N, targetSampleIndex t dur N⟩,
              wp + (targetSampleIndex t dur N - c) / 3, ls, nf⟩,
            some ⟨c, targetSampleIndex t dur N⟩) := by
        simp [DecodeScheduler.advance, hle]
      simp only [runAdvances, hadv, Option.toList, List.cons_append, List.nil_append]
      refine ⟨rfl, hlt, ?_⟩
      rcases List.mem_cons.mp hmem with hdt | hmem2
      · have htgtN : targetSampleIndex t dur N = N := by
          rw [← hdt]; exact targetSampleIndex_at_duration dur N hdur
        simp only [htgtN]
        rw [runAdvances_done dur hdur hd N ts htsRest _ ls nf]
        exact rfl
      · exact ih htsRest hmem2 (targetSampleIndex t dur N) _ ls nf htgtle

/-- Claim C4: across any `advance` sequence whose playback times lie
in `[0, duration]` and reach the duration (out-of-order or duplicate
reports being no-ops via the `targetSampleIndex ≤ samplesConsumed`
guard), the emitted SampleRanges have non-decreasing starts and tile
`[0, totalSamples)` with no gaps and no overlaps, each sample index
covered exactly once. -/
theorem C4_advance_monotone_coverage (s0 : Scheduler) (hd : Header) (N : Nat)
    (dur : ℚ) (ts : List ℚ) (s1 : Scheduler)
    (hstart : DecodeScheduler.start s0 hd N = .ok s1)
    (hdur : 0 < dur)
    (hts : ∀ t ∈ ts, 0 ≤ t ∧ t ≤ dur)
    (hmem : dur ∈ ts) :
    tiles (runAdvances dur s1 ts).2 0 N := by
  obtain ⟨st, sopt, wp, ls, nf⟩ := s0
  unfold DecodeScheduler.start at hstart
  cases st with
  | Idle =>
    simp only [Except.ok.injEq] at hstart
    rw [← hstart]
    exact runAdvances_tiles dur hdur hd N ts (fun t ht => (hts t ht).2) hmem
      0 wp ls nf (Nat.zero_le N)
  | Decoding => exact absurd hstart (by simp)
  | Finished => exact absurd hstart (by simp)

/-- Witness for C4: a 4-sample session driven by playback reports at
a quarter, a half, three quarters and the full duration. -/
theorem C4_advance_monotone_coverage_witness :
    tiles (runAdvances 1 ⟨.Decoding, some ⟨⟨1, 2, 2⟩, 4, 0⟩, 0, [], []⟩
      [1/4, 1/2, 3/4, 1]).2 0 4 :=
  C4_advance_monotone_coverage ⟨.Idle, none, 0, [], []⟩ ⟨1, 2, 2⟩ 4 1
    [1/4, 1/2, 3/4, 1] ⟨.Decoding, some ⟨⟨1, 2, 2⟩, 4, 0⟩, 0, [], []⟩
    rfl (by norm_num) (by norm_num) (by norm_num)

/-- Observable steps of `handlerOnSelectSoundFile`
(`src/containers/Main/index.tsx`, lines 123–168). -/
inductive StageEffect where
  | setLogTick
  | setLogWarning
  | showAlert
  | dispatchAudioFileOpened (fileTypeId : Nat) (header : Option Header)
  | clearStage
deriving DecidableEq, Repr

/-- Embedding of `handlerOnSelectSoundFile`
(`src/containers/Main/index.tsx`, lines 123–168): when the selected
file list is non-empty, detect the type id of the first file's
buffer; on a known bitmap id log success and take the parsed header,
otherwise force the fallback header, log a warning and show the
alert; then dispatch `audioFileOpened` and finally clear the stage
canvas. -/
def handlerOnSelectSoundFile (audioFiles : List (List Nat)) : List StageEffect :=
  match audioFiles with
  | [] => []
  | buf :: _ =>
    let fileTypeId := detect buf
    if fileTypeId ∈ bitmapTypeIds then
      [StageEffect.setLogTick,
       StageEffect.dispatchAudioFileOpened fileTypeId
         (HeaderCodec.parse buf fileTypeId).toOption,
       StageEffect.clearStage]
    else
      [StageEffect.setLogWarning, StageEffect.showAlert,
       StageEffect.dispatchAudioFileOpened fileTypeId
         (some ⟨UNKNOWN_BITMAP_TYPE_ID, MIN_STAGE_WIDTH, MIN_STAGE_HEIGHT⟩),
       StageEffect.clearStage]

/-- Claim C9: whenever a sound file is selected (the file list is
non-empty), the handler clears the stage via `clearStage`, for known
and unknown file types alike; the clear is the handler's final step,
so it precedes any decode, which only starts later in
`handlerPlayAndDecode`. -/
theorem C9_clearStage_on_select (audioFiles : List (List Nat))
    (h : audioFiles ≠ []) :
    StageEffect.clearStage ∈ handlerOnSelectSoundFile audioFiles ∧
    (handlerOnSelectSoundFile audioFiles).getLast? = some StageEffect.clearStage := by
  match audioFiles with
  | [] => exact absurd rfl h
  | buf :: rest =>
    by_cases hk : detect buf ∈ bitmapTypeIds
    · simp only [handlerOnSelectSoundFile, if_pos hk]
      exact ⟨by simp, rfl⟩
    · simp only [handlerOnSelectSoundFile, if_neg hk]
      exact ⟨by simp, rfl⟩

/-- Witness for C9 at a one-element file list whose buffer matches no
signature. -/
theorem C9_clearStage_on_select_witness :
    StageEffect.clearStage ∈ handlerOnSelectSoundFile [[9, 9, 9]] ∧
    (handlerOnSelectSoundFile [[9, 9, 9]]).getLast? = some StageEffect.clearStage :=
  C9_clearStage_on_select [[9, 9, 9]] (by simp)

/-- Embedding of the `StageCanvas` width expression
`bitmapHeader?.width || 0` (`src/containers/Main/index.tsx`,
line 274): `undefined` and the falsy `0` both default to 0. -/
def stageCanvasWidth (bitmapHeader : Option Header) : Nat :=
  match bitmapHeader with
  | none => 0
  | some hd => if hd.width = 0 then 0 else hd.width

/-- Embedding of the `StageCanvas` height expression
`bitmapHeader?.height || 0` (`src/containers/Main/index.tsx`,
line 275). -/
def stageCanvasHeight (bitmapHeader : Option Header) : Nat :=
  match bitmapHeader with
  | none => 0
  | some hd => if hd.height = 0 then 0 else hd.height

/-- Claim C10: when no header has been obtained (`bitmapHeader` is
null), the stage raster surface is constructed with width 0 and
height 0 via the `|| 0` defaults, so the Header-less state yields a
degenerate zero-sized surface rather than satisfying the
`width > 0 ∧ height > 0` invariant. -/
theorem C10_stage_zero_without_header :
    stageCanvasWidth none = 0 ∧ stageCanvasHeight none = 0 ∧
    ¬(0 < stageCanvasWidth none ∧ 0 < stageCanvasHeight none) := by
  refine ⟨rfl, rfl, ?_⟩
  intro hcontra
  exact absurd hcontra.1 (by decide)

end Voyager
